import Mathlib

/-!
Verification development for the tennis doubles match scheduler.

The repository contains two variants of the scheduling core:
* `src/app/page.tsx` — embedded below under names prefixed with `page`;
* `src/unnamed/part_000` — embedded below under names prefixed with `part0`.

Both variants share a data model (players, teams, courts, rounds), a
backtracking pairing search (`findRoundPairing`), a per-round candidate
scorer (`scoreCandidateRound`), and a bounded best-of-60 attempt loop
(`generateRounds`).  The only source of nondeterminism is the tie-breaking
`Math.random()` inside the per-attempt player sort in `generateRounds`;
it is modelled by an explicit oracle `orders : Nat → Nat → List Player`
giving, for each round index and attempt index, the sorted player order
the attempt starts from.  ECMAScript guarantees any sort result is a
permutation of its input, so theorems assume `(orders r a).Perm players`
where needed.

JavaScript objects/Maps are modelled as insertion-ordered association
lists, string keys exactly as the source builds them (names joined with
`"::"` after lexicographic sorting).
-/

namespace TM

inductive Gender where
  | M : Gender
  | F : Gender
deriving DecidableEq, Repr

structure Player where
  name : String
  level : Int
  gender : Gender
deriving DecidableEq, Repr

/-- `type Team = [string, string]` — a pair of player names. -/
abbrev Team := String × String

/-- `type CourtMatch = { court, team1, team2? }`. -/
structure CourtMatch where
  court : Nat
  team1 : List String
  team2 : Option (List String)
deriving DecidableEq, Repr

/-- `type RoundView = { roundIndex, courts, restingPlayers, score? }`. -/
structure RoundView where
  roundIndex : Nat
  courts : List CourtMatch
  restingPlayers : List String
  score : Option Int
deriving DecidableEq, Repr

inductive PriorityMode where
  | none : PriorityMode
  | level : PriorityMode
  | gender : PriorityMode
deriving DecidableEq, Repr

structure PlayerSettings where
  level : Int
  gender : Gender
deriving DecidableEq, Repr

/-- `DEFAULT_SETTINGS = { level: 4, gender: "M" }`. -/
def defaultSettings : PlayerSettings := ⟨4, Gender.M⟩

/-! ### Association lists (JavaScript objects / Maps) -/

/-- Lookup in an association list (JS `obj[k]` / `map.get(k)`). -/
def alGet {α : Type} (m : List (String × α)) (k : String) : Option α :=
  match m with
  | [] => Option.none
  | (k₁, v) :: t => if k₁ = k then some v else alGet t k

/-- Lookup with a default (JS `obj[k] ?? d`). -/
def alGetD {α : Type} (m : List (String × α)) (k : String) (d : α) : α :=
  (alGet m k).getD d

/-- Assignment (JS `obj[k] = v` / `map.set(k, v)`): updates an existing key
in place, otherwise appends, preserving insertion order. -/
def alSet {α : Type} (m : List (String × α)) (k : String) (v : α) : List (String × α) :=
  match m with
  | [] => [(k, v)]
  | (k₁, v₁) :: t => if k₁ = k then (k, v) :: t else (k₁, v₁) :: alSet t k v

/-- Add to a JS `Set<string>` modelled as an insertion-ordered list. -/
def insertSet (s : List String) (n : String) : List String :=
  if n ∈ s then s else s ++ [n]

/-! ### Small list helpers used throughout the embedding -/

def flatMapL {α β : Type} (f : α → List β) : List α → List β
  | [] => []
  | a :: l => f a ++ flatMapL f l

/-- All names appearing in a list of teams, in order. -/
def teamNames : List Team → List String
  | [] => []
  | t :: ts => t.1 :: t.2 :: teamNames ts

/-- All names appearing on the courts of a round (team1 then team2 per court). -/
def courtNames : List CourtMatch → List String
  | [] => []
  | c :: cs => c.team1 ++ (match c.team2 with | some t => t | Option.none => []) ++ courtNames cs

/-! ### Keys -/

/-- Stable insertion sort by a boolean "less or equal" test; this is the
unique stable sort, hence the result of `Array.prototype.sort` (stable per
ES2019) with a consistent comparator `cmp` when `le a b ↔ cmp(a,b) ≤ 0`. -/
def insLe {α : Type} (le : α → α → Bool) (a : α) : List α → List α
  | [] => [a]
  | b :: l => if le a b then a :: b :: l else b :: insLe le a l

def sortG {α : Type} (le : α → α → Bool) : List α → List α
  | [] => []
  | a :: l => insLe le a (sortG le l)

/-- Lexicographic order on character lists: the order of JavaScript's
default string comparison (they agree on all strings without surrogate
pairs, in particular on every name handled here). -/
def charListLt : List Char → List Char → Bool
  | [], [] => false
  | [], _ :: _ => true
  | _ :: _, [] => false
  | a :: as, b :: bs => if a < b then true else if b < a then false else charListLt as bs

def strLe (a b : String) : Bool := !charListLt b.data a.data

/-- `pairKey(a, b)`: the two names sorted lexicographically, joined by `"::"`. -/
def pairKeyS (a b : String) : String :=
  if strLe a b then a ++ "::" ++ b else b ++ "::" ++ a

/-- `matchupKey(team1, team2)`: the four names sorted, joined by `"::"`. -/
def matchupKeyL (t1 t2 : List String) : String :=
  String.intercalate "::" (sortG strLe (t1 ++ t2))

/-- The forbidden-pair key set (`new Set(forbiddenPairs.map(...))`). -/
def forbKeys (forbiddenPairs : List Team) : List String :=
  forbiddenPairs.map (fun t => pairKeyS t.1 t.2)

/-! ### Candidate ordering in `findRoundPairing`

Both variants sort the candidate-partner list with a multi-key comparator
(`candidates.sort(...)`); keys are compared lexicographically, earlier keys
first.  `lexLe ks₁ ks₂` is `cmp ≤ 0` for such a comparator. -/

def lexLe : List Int → List Int → Bool
  | [], _ => true
  | _ :: _, [] => false
  | a :: as, b :: bs => if a < b then true else if b < a then false else lexLe as bs

/-- `Math.abs(a.level - p1.level)`. -/
def levelDist (p₁ p : Player) : Int := |p.level - p₁.level|

/-- `genderScore` in the source: 0 for opposite gender, 1 for same gender. -/
def genderScore (p₁ p : Player) : Int := if p.gender = p₁.gender then 1 else 0

/-- Candidate ordering of `findRoundPairing` in `src/unnamed/part_000`
(lines 119–132): `level` sorts by ascending level distance to `p1`;
`gender` sorts by (opposite-gender-first, level distance); `none` keeps
the caller-supplied order. -/
def part0CandSort (mode : PriorityMode) (p₁ : Player) (cands : List Player) : List Player :=
  match mode with
  | PriorityMode.none => cands
  | PriorityMode.level =>
      sortG (fun a b => lexLe [levelDist p₁ a] [levelDist p₁ b]) cands
  | PriorityMode.gender =>
      sortG (fun a b => lexLe [genderScore p₁ a, levelDist p₁ a]
                              [genderScore p₁ b, levelDist p₁ b]) cands

/-- Candidate ordering of `findRoundPairing` in `src/app/page.tsx`
(lines 290–325): both `level` and `gender` first compare games played
(ascending), then last-played round (ascending), then the mode-specific
keys; `none` keeps the caller-supplied order. -/
def pageCandSort (mode : PriorityMode) (games : List (String × Nat))
    (last : List (String × Int)) (p₁ : Player) (cands : List Player) : List Player :=
  match mode with
  | PriorityMode.none => cands
  | PriorityMode.level =>
      sortG (fun a b =>
        lexLe [((alGetD games a.name 0 : Nat) : Int), alGetD last a.name (-1), levelDist p₁ a]
              [((alGetD games b.name 0 : Nat) : Int), alGetD last b.name (-1), levelDist p₁ b]) cands
  | PriorityMode.gender =>
      sortG (fun a b =>
        lexLe [((alGetD games a.name 0 : Nat) : Int), alGetD last a.name (-1),
               genderScore p₁ a, levelDist p₁ a]
              [((alGetD games b.name 0 : Nat) : Int), alGetD last b.name (-1),
               genderScore p₁ b, levelDist p₁ b]) cands

/-! ### The backtracking pairing search (`findRoundPairing`) -/

def firstSome {α β : Type} (f : α → Option β) : List α → Option β
  | [] => Option.none
  | a :: l => match f a with
    | some b => some b
    | Option.none => firstSome f l

/-- The recursive `backtrack()` of `findRoundPairing`, fuelled (`fuel ≥`
the length of the remaining list always suffices; the wrapper supplies it).
The remaining players are always an order-preserving sublist of the
caller's order, so recomputing `order.filter(p => !used.has(p.name))` is
the same as filtering the two newly used names out of the current rest. -/
def searchFuel (forb : List String) (prev : Option (List String))
    (sortC : Player → List Player → List Player) :
    Nat → List Player → Option (List Team)
  | 0, _ => Option.none
  | _ + 1, [] => some []
  | _ + 1, [_] => some []
  | fuel + 1, p₁ :: rest =>
      firstSome (fun p₂ =>
        if pairKeyS p₁.name p₂.name ∈ forb then Option.none
        else if pairKeyS p₁.name p₂.name ∈ prev.getD [] then Option.none
        else
          (searchFuel forb prev sortC fuel
              (rest.filter (fun q => q.name ≠ p₁.name ∧ q.name ≠ p₂.name))).map
            (fun ts => (p₁.name, p₂.name) :: ts))
        (sortC p₁ rest)

/-- The resting list computed by `findRoundPairing` after a successful
search: players of the order whose name was not used in any team. -/
def restingOf (order : List Player) (ts : List Team) : List String :=
  (order.filter (fun p => p.name ∉ teamNames ts)).map Player.name

/-- `findRoundPairing`, generic in the candidate ordering; returns the
teams and the resting names, or `none` on backtracking failure. -/
def findPairing (forbiddenPairs : List Team) (prev : Option (List String))
    (sortC : Player → List Player → List Player) (order : List Player) :
    Option (List Team × List String) :=
  match searchFuel (forbKeys forbiddenPairs) prev sortC order.length order with
  | Option.none => Option.none
  | some ts => some (ts, restingOf order ts)

/-! ### Court assignment -/

/-- The `while (courtNo <= courtCount && teamsForCourt.length >= 2)` loop of
`generateRounds`: consume teams two at a time into courts, returning the
courts and the leftover teams (whose members will rest). -/
def buildCourts (courtCount : Int) : Nat → List Team → List CourtMatch × List Team
  | n, t₁ :: t₂ :: rest =>
      if (n : Int) ≤ courtCount then
        ({ court := n, team1 := [t₁.1, t₁.2], team2 := some [t₂.1, t₂.2] } ::
            (buildCourts courtCount (n + 1) rest).1,
         (buildCourts courtCount (n + 1) rest).2)
      else ([], t₁ :: t₂ :: rest)
  | _, ts => ([], ts)

/-! ### Scoring (`scoreCandidateRound`) -/

/-- The `playedThisRound` set: all names on the courts, insertion order. -/
def playedOf (courts : List CourtMatch) : List String :=
  courts.foldl (fun s c =>
    ((c.team1 ++ (match c.team2 with | some t => t | Option.none => [])).foldl insertSet s)) []

/-- Term ①: +3 for each playing player whose `lastPlayedRound` equals
`roundIndex - 1` (note: at round 0 this matches the initial `-1`). -/
def consecTerm (played : List String) (last : List (String × Int)) (r : Nat) : Int :=
  played.foldl (fun s n => if alGetD last n (-1) = (r : Int) - 1 then s + 3 else s) 0

/-- The `teamIdByPlayer` map: `R{r}-C{court}-T1` / `T2` per player. -/
def teamIdsOf (r : Nat) (courts : List CourtMatch) : List (String × String) :=
  courts.foldl (fun m c =>
    let m₁ := c.team1.foldl
      (fun m n => alSet m n ("R" ++ toString r ++ "-C" ++ toString c.court ++ "-T1")) m
    match c.team2 with
    | some t2 => t2.foldl
        (fun m n => alSet m n ("R" ++ toString r ++ "-C" ++ toString c.court ++ "-T2")) m₁
    | Option.none => m₁) []

/-- Term ②: fixed pairs — −5 if co-teamed this round, +20 if both play but
on different teams, 0 if either rests. -/
def fixedTerm (fixedPairs : List Team) (played : List String)
    (tid : List (String × String)) : Int :=
  fixedPairs.foldl (fun s t =>
    if t.1 ∈ played ∧ t.2 ∈ played then
      match alGet tid t.1, alGet tid t.2 with
      | some ta, some tb => if ta = tb then s - 5 else s + 20
      | _, _ => s
    else s) 0

/-- `team.reduce((acc, name) => acc + (levelMap[name] ?? 4), 0)`. -/
def levelSum (lm : List (String × Int)) (team : List String) : Int :=
  team.foldl (fun acc n => acc + alGetD lm n 4) 0

/-- `diff = Math.abs(sum1 - sum2)` for a two-team court. -/
def courtDiff (lm : List (String × Int)) (t1 t2 : List String) : Int :=
  |levelSum lm t1 - levelSum lm t2|

/-- Level-imbalance term of `src/app/page.tsx` (lines 201–207):
`if (diff > 2) score += (diff-2)*(diff-2)*10`. -/
def pageLevelTerm (lm : List (String × Int)) (c : CourtMatch) : Int :=
  match c.team2 with
  | Option.none => 0
  | some t2 =>
      let d := courtDiff lm c.team1 t2
      if 2 < d then (d - 2) * (d - 2) * 10 else 0

/-- Level-imbalance term of `src/unnamed/part_000` (lines 252–269):
`if (diff >= 2) { over = diff - 1; score += over*over*10 }`. -/
def part0LevelTerm (lm : List (String × Int)) (c : CourtMatch) : Int :=
  match c.team2 with
  | Option.none => 0
  | some t2 =>
      let d := courtDiff lm c.team1 t2
      if 2 ≤ d then (d - 1) * (d - 1) * 10 else 0

/-- Repeated-matchup term of `src/app/page.tsx` (lines 209–238). -/
def pageMatchupTerm (r : Nat) (mLast mCount : List (String × Nat)) (c : CourtMatch) : Int :=
  match c.team2 with
  | Option.none => 0
  | some t2 =>
      let key := matchupKeyL c.team1 t2
      let countSoFar : Nat := alGetD mCount key 0
      match alGet mLast key with
      | Option.none => 0
      | some lr =>
          let gap : Int := (r : Int) - (lr : Int)
          let base : Int := if gap ≤ 5 then 1000000 else if gap ≤ 10 then 200000 else 50000
          base * ((countSoFar : Int) + 1) * ((countSoFar : Int) + 1)

/-- Repeated-matchup term of `src/unnamed/part_000` (lines 218–250). -/
def part0MatchupTerm (r : Nat) (mLast mCount : List (String × Nat)) (c : CourtMatch) : Int :=
  match c.team2 with
  | Option.none => 0
  | some t2 =>
      let key := matchupKeyL c.team1 t2
      let prevCount : Nat := alGetD mCount key 0
      if 0 < prevCount then
        let base : Int := 100000 * (prevCount : Int) * (prevCount : Int)
        let close : Int := match alGet mLast key with
          | some lr => max 0 (20000 - ((r : Int) - (lr : Int)) * 2000)
          | Option.none => 0
        base + close
      else 0

/-- The hypothetical games map if the candidate round were committed. -/
def tmpGamesOf (games : List (String × Nat)) (played : List String) : List (String × Nat) :=
  played.foldl (fun m n => alSet m n (alGetD m n 0 + 1)) games

/-- `(max − min)` over a list of game counts; 0 for an empty list (the
source skips the term when min/max stay at ±Infinity). -/
def minMaxDiff (vals : List Nat) : Int :=
  match vals with
  | [] => 0
  | v :: vs => ((vs.foldl max v : Nat) : Int) - ((vs.foldl min v : Nat) : Int)

/-- `scoreCandidateRound` of `src/app/page.tsx` (lines 129–261). -/
def pageScore (courts : List CourtMatch) (r : Nat) (games : List (String × Nat))
    (last : List (String × Int)) (lm : List (String × Int))
    (mLast mCount : List (String × Nat)) (fixedPairs : List Team) : Int :=
  let played := playedOf courts
  let s₁ := consecTerm played last r
  let s₂ := fixedTerm fixedPairs played (teamIdsOf r courts)
  let s₃ := courts.foldl (fun s c => s + pageLevelTerm lm c + pageMatchupTerm r mLast mCount c) 0
  let tmp := tmpGamesOf games played
  let s₄ := minMaxDiff (tmp.map (fun e => e.2)) * 4
  s₁ + s₂ + s₃ + s₄

/-- `scoreCandidateRound` of `src/unnamed/part_000` (lines 161–341),
including the ⑤-2 block-quota term. -/
def part0Score (courts : List CourtMatch) (r : Nat) (games : List (String × Nat))
    (last : List (String × Int)) (lm : List (String × Int))
    (mLast mCount : List (String × Nat)) (fixedPairs : List Team) : Int :=
  let played := playedOf courts
  let s₁ := consecTerm played last r
  let s₂ := fixedTerm fixedPairs played (teamIdsOf r courts)
  let s₃ := courts.foldl (fun s c => s + part0MatchupTerm r mLast mCount c) 0
  let s₄ := courts.foldl (fun s c => s + part0LevelTerm lm c) 0
  let tmp := tmpGamesOf games played
  let allNames := lm.map (fun e => e.1)
  match allNames with
  | [] => s₁ + s₂ + s₃ + s₄
  | _ =>
    let s₅ := minMaxDiff (allNames.map (fun n => alGetD tmp n 0)) * 25
    let total := allNames.length
    let thisRound := played.length
    let s₆ :=
      if 0 < thisRound ∧ total % thisRound = 0 then
        let blockRounds := total / thisRound
        if 0 < blockRounds then
          if r % blockRounds = blockRounds - 1 then
            let requiredMin := r / blockRounds + 1
            let missing := allNames.foldl (fun m n => m + (requiredMin - alGetD tmp n 0)) 0
            if 0 < missing then (missing : Int) * 5000 else 0
          else 0
        else 0
      else 0
    s₁ + s₂ + s₃ + s₄ + s₅ + s₆

/-! ### The multi-round generator (`generateRounds`) -/

/-- The running cross-round state of one `generateRounds` call. -/
structure St where
  games : List (String × Nat)
  last : List (String × Int)
  levelMap : List (String × Int)
  prevPairs : Option (List String)
  mLast : List (String × Nat)
  mCount : List (String × Nat)
deriving Repr

/-- One surviving attempt candidate (score, courts, updated resting list,
and the raw team list used for the non-null check). -/
structure Cand where
  score : Int
  courts : List CourtMatch
  resting : List String
  teams : List Team
deriving DecidableEq, Repr

/-- The two source variants differ in three places: whether a candidate
reproducing a past `MatchupKey` is discarded before scoring (`hardBan`,
`part_000` only), the scorer, and the candidate ordering of the pairing
search. -/
structure Variant where
  hardBan : Bool
  scorer : List CourtMatch → Nat → List (String × Nat) → List (String × Int) →
    List (String × Int) → List (String × Nat) → List (String × Nat) → List Team → Int
  candSort : PriorityMode → List (String × Nat) → List (String × Int) →
    Player → List Player → List Player

def pageVariant : Variant :=
  { hardBan := false
    scorer := pageScore
    candSort := pageCandSort }

def part0Variant : Variant :=
  { hardBan := true
    scorer := part0Score
    candSort := fun mode _ _ => part0CandSort mode }

/-- Does any court of the candidate reproduce a matchup key already in the
history map? (`pastMatchupCount.has(key)` — the `part_000` hard filter.) -/
def hasRepeatedMatchup (mCount : List (String × Nat)) (courts : List CourtMatch) : Bool :=
  courts.any (fun c =>
    match c.team2 with
    | some t2 => (alGet mCount (matchupKeyL c.team1 t2)).isSome
    | Option.none => false)

/-- One attempt of the inner loop of `generateRounds`: pairing search on
the supplied order, court assignment, surplus pairs to rest, optional
hard-ban filter, scoring. -/
def mkCand (v : Variant) (courtCount : Int) (fixedPairs forbiddenPairs : List Team)
    (mode : PriorityMode) (st : St) (r : Nat) (order : List Player) : Option Cand :=
  match findPairing forbiddenPairs st.prevPairs (v.candSort mode st.games st.last) order with
  | Option.none => Option.none
  | some (ts, resting₀) =>
      if v.hardBan && hasRepeatedMatchup st.mCount (buildCourts courtCount 1 ts).1 then
        Option.none
      else
        some { score := v.scorer (buildCourts courtCount 1 ts).1 r st.games st.last
                 st.levelMap st.mLast st.mCount fixedPairs
               courts := (buildCourts courtCount 1 ts).1
               resting := resting₀ ++ teamNames (buildCourts courtCount 1 ts).2
               teams := ts }

/-- The `for (attempt = 0; attempt < 60; attempt++)` loop: keep the
strictly best candidate seen so far, breaking as soon as a candidate both
improves the best and scores exactly 0. -/
def runAttempts (attf : Nat → Option Cand) : List Nat → Option Cand → Option Cand
  | [], best => best
  | i :: rest, best =>
      match attf i with
      | Option.none => runAttempts attf rest best
      | some c =>
          if (match best with | Option.none => true | some b => c.score < b.score) then
            if c.score = 0 then some c
            else runAttempts attf rest (some c)
          else runAttempts attf rest best

/-- Commit the best candidate of round `r`: bump `gamesPlayed` and
`lastPlayedRound` for every player who appears on a court, replace the
previous-round pair set by this round's court pair keys, and record this
round's matchup keys. -/
def courtPairs (c : CourtMatch) : List String :=
  (match c.team1 with | [a, b] => [pairKeyS a b] | _ => []) ++
  (match c.team2 with | some [a, b] => [pairKeyS a b] | _ => [])

def commitSt (st : St) (r : Nat) (best : Cand) : St :=
  let played := playedOf best.courts
  { games := played.foldl (fun m n => alSet m n (alGetD m n 0 + 1)) st.games
    last := played.foldl (fun m n => alSet m n (r : Int)) st.last
    levelMap := st.levelMap
    prevPairs := some (flatMapL courtPairs best.courts)
    mLast := (best.courts.filter (fun c => c.team2.isSome)).foldl
      (fun m c => alSet m (matchupKeyL c.team1 (c.team2.getD [])) r) st.mLast
    mCount := (best.courts.filter (fun c => c.team2.isSome)).foldl
      (fun m c =>
        let key := matchupKeyL c.team1 (c.team2.getD [])
        alSet m key (alGetD m key 0 + 1)) st.mCount }

/-- One round of `generateRounds`: 60 attempts, then commit the best
candidate, or fail (`return null`) if none survived. -/
def genStep (v : Variant) (courtCount : Int) (fixedPairs forbiddenPairs : List Team)
    (mode : PriorityMode) (orders : Nat → Nat → List Player) (st : St) (r : Nat) :
    Option (RoundView × St) :=
  match runAttempts (fun i => mkCand v courtCount fixedPairs forbiddenPairs mode st r (orders r i))
      (List.range 60) Option.none with
  | Option.none => Option.none
  | some best =>
      some ({ roundIndex := r
              courts := best.courts
              restingPlayers := best.resting
              score := some best.score },
            commitSt st r best)

def genLoop (v : Variant) (courtCount : Int) (fixedPairs forbiddenPairs : List Team)
    (mode : PriorityMode) (orders : Nat → Nat → List Player) :
    St → Nat → Nat → Option (List RoundView)
  | _, _, 0 => some []
  | st, r, n + 1 =>
      match genStep v courtCount fixedPairs forbiddenPairs mode orders st r with
      | Option.none => Option.none
      | some (rv, st₁) =>
          (genLoop v courtCount fixedPairs forbiddenPairs mode orders st₁ (r + 1) n).map
            (fun rs => rv :: rs)

/-- The initial running state: every player at 0 games, last round −1,
level from the roster; empty pair and matchup history. -/
def initSt (players : List Player) : St :=
  { games := players.foldl (fun m p => alSet m p.name 0) []
    last := players.foldl (fun m p => alSet m p.name (-1)) []
    levelMap := players.foldl (fun m p => alSet m p.name p.level) []
    prevPairs := Option.none
    mLast := []
    mCount := [] }

/-- `generateRounds`, generic in the variant; `orders r a` is the sorted
player order attempt `a` of round `r` starts from (modelling the
fairness-first sort with `Math.random()` tie-breaks). -/
def genRounds (v : Variant) (players : List Player) (courtCount : Int) (matchCount : Nat)
    (fixedPairs forbiddenPairs : List Team) (mode : PriorityMode)
    (orders : Nat → Nat → List Player) : Option (List RoundView) :=
  genLoop v courtCount fixedPairs forbiddenPairs mode orders (initSt players) 0 matchCount

/-- The running state at the start of round `r`, after committing every
round of index `< r`. -/
def stateAt (v : Variant) (courtCount : Int) (fixedPairs forbiddenPairs : List Team)
    (mode : PriorityMode) (orders : Nat → Nat → List Player) (players : List Player) :
    Nat → Option St
  | 0 => some (initSt players)
  | r + 1 =>
      match stateAt v courtCount fixedPairs forbiddenPairs mode orders players r with
      | Option.none => Option.none
      | some st =>
          (genStep v courtCount fixedPairs forbiddenPairs mode orders st r).map (fun p => p.2)

/-- `generateRounds` of `src/app/page.tsx` (lines 358–509). -/
def pageGenerateRounds (players : List Player) (courtCount : Int) (matchCount : Nat)
    (fixedPairs forbiddenPairs : List Team) (mode : PriorityMode)
    (orders : Nat → Nat → List Player) : Option (List RoundView) :=
  genRounds pageVariant players courtCount matchCount fixedPairs forbiddenPairs mode orders

/-- `generateRounds` of `src/unnamed/part_000` (lines 344–495). -/
def part0GenerateRounds (players : List Player) (courtCount : Int) (matchCount : Nat)
    (fixedPairs forbiddenPairs : List Team) (mode : PriorityMode)
    (orders : Nat → Nat → List Player) : Option (List RoundView) :=
  genRounds part0Variant players courtCount matchCount fixedPairs forbiddenPairs mode orders

/-! ### `handleGenerate` (input validation and constraint filtering) -/

inductive GenResult where
  | invalid : String → GenResult
  | infeasible : String → GenResult
  | ok : List RoundView → GenResult
deriving DecidableEq, Repr

def GenResult.isOk : GenResult → Bool
  | GenResult.ok _ => true
  | _ => false

def GenResult.isInvalid : GenResult → Bool
  | GenResult.invalid _ => true
  | _ => false

/-- `Array.from(new Set(participants))`: deduplicate, keeping the first
occurrence of each name in order. -/
def dedupFirstAux (seen : List String) : List String → List String
  | [] => []
  | a :: l => if a ∈ seen then dedupFirstAux seen l else a :: dedupFirstAux (seen ++ [a]) l

def dedupFirst (l : List String) : List String := dedupFirstAux [] l

def getSettingsD (settings : List (String × PlayerSettings)) (n : String) : PlayerSettings :=
  alGetD settings n defaultSettings

def mkPlayers (settings : List (String × PlayerSettings)) (names : List String) : List Player :=
  names.map (fun n =>
    let s := getSettingsD settings n
    { name := n, level := s.level, gender := s.gender })

def effectivePairs (uniqueNames : List String) (pairs : List Team) : List Team :=
  pairs.filter (fun t => decide (t.1 ∈ uniqueNames ∧ t.2 ∈ uniqueNames))

def infeasibleMsg : String :=
  "条件が厳しすぎて組み合わせを生成できませんでした。\n固定ペア・禁止ペア・優先モード・コート数・試合数などを少し緩めてみてください。"

/-- `handleGenerate` of `src/app/page.tsx` (lines 800–851): requires ≥ 2
distinct participants and a positive court count, silently filters fixed
and forbidden pairs down to those whose two members are both participants,
then runs `generateRounds`. -/
def pageHandleGenerate (participants : List String) (settings : List (String × PlayerSettings))
    (fixedPairs forbiddenPairs : List Team) (courtCount : Int) (matchCount : Nat)
    (mode : PriorityMode) (orders : Nat → Nat → List Player) : GenResult :=
  let uniqueNames := dedupFirst participants
  if uniqueNames.length < 2 then
    GenResult.invalid "参加者は2人以上必要です。サークルメンバーやビジターを登録してください。"
  else if courtCount ≤ 0 then
    GenResult.invalid "コート数は1以上を指定してください。"
  else
    match pageGenerateRounds (mkPlayers settings uniqueNames) courtCount matchCount
        (effectivePairs uniqueNames fixedPairs) (effectivePairs uniqueNames forbiddenPairs)
        mode orders with
    | Option.none => GenResult.infeasible infeasibleMsg
    | some rs => GenResult.ok rs

/-- `handleGenerate` of `src/unnamed/part_000` (lines 765–809): same
pipeline but requires at least 4 distinct participants. -/
def part0HandleGenerate (participants : List String) (settings : List (String × PlayerSettings))
    (fixedPairs forbiddenPairs : List Team) (courtCount : Int) (matchCount : Nat)
    (mode : PriorityMode) (orders : Nat → Nat → List Player) : GenResult :=
  let uniqueNames := dedupFirst participants
  if uniqueNames.length < 4 then
    GenResult.invalid "最低でも4人以上の参加者が必要です。"
  else if courtCount ≤ 0 then
    GenResult.invalid "コート数は1以上を指定してください。"
  else
    match part0GenerateRounds (mkPlayers settings uniqueNames) courtCount matchCount
        (effectivePairs uniqueNames fixedPairs) (effectivePairs uniqueNames forbiddenPairs)
        mode orders with
    | Option.none => GenResult.infeasible infeasibleMsg
    | some rs => GenResult.ok rs

/-- The pair keys of one round: the `currentPairs` the generator computes
from a committed round's courts. -/
def roundPairKeys (rv : RoundView) : List String := flatMapL courtPairs rv.courts

/-- The matchup keys of a list of courts (two-team courts only). -/
def matchupKeysOf (courts : List CourtMatch) : List String :=
  flatMapL (fun c =>
    match c.team2 with
    | some t2 => [matchupKeyL c.team1 t2]
    | Option.none => []) courts

def roundMatchupKeys (rv : RoundView) : List String := matchupKeysOf rv.courts

/-- The C1 invariant of one round: no name occurs twice across the courts
and the resting list, every team is two distinct names, and the resting
list holds exactly the players on no court. -/
def RoundOK (players : List Player) (rv : RoundView) : Prop :=
  (courtNames rv.courts ++ rv.restingPlayers).Nodup ∧
  (∀ c ∈ rv.courts,
    (∃ a b, c.team1 = [a, b] ∧ a ≠ b) ∧ (∃ a b, c.team2 = some [a, b] ∧ a ≠ b)) ∧
  (∀ n, n ∈ rv.restingPlayers ↔ n ∈ players.map Player.name ∧ n ∉ courtNames rv.courts)

/-- The four-player roster of the spec's infeasibility scenario. -/
def fourPlayers : List Player :=
  [{ name := "A", level := 4, gender := Gender.M },
   { name := "B", level := 4, gender := Gender.M },
   { name := "C", level := 4, gender := Gender.M },
   { name := "D", level := 4, gender := Gender.M }]

/-- All six possible pairs among the four players, all forbidden. -/
def allPairsForbidden4 : List Team :=
  [("A", "B"), ("A", "C"), ("A", "D"), ("B", "C"), ("B", "D"), ("C", "D")]

/-! ### Concrete instances used by counterexamples and witnesses -/

def mkLevel4M (n : String) : Player := { name := n, level := 4, gender := Gender.M }

/-- Eight level-4 players A–H with fixed pairs AB, CD, EF (claim C8). -/
def cx8Players : List Player := ["A", "B", "C", "D", "E", "F", "G", "H"].map mkLevel4M

def cx8Fixed : List Team := [("A", "B"), ("C", "D"), ("E", "F")]

def cx8Order0 : List Player := ["E", "F", "G", "H", "A", "B", "C", "D"].map mkLevel4M

def cx8Order1 : List Player := ["C", "G", "D", "H", "A", "B", "E", "F"].map mkLevel4M

def cx8OrderX : List Player := ["E", "F", "A", "B", "C", "G", "D", "H"].map mkLevel4M

def cx8OrderY : List Player := ["A", "B", "C", "D", "E", "F", "G", "H"].map mkLevel4M

/-- The attempt-order oracle of the C8 counterexample run: rounds 0 and 1
set up the cross-round state; at round 2 attempt 0 yields a −6-scoring
candidate and attempt 1 a 0-scoring one. -/
def cx8Orders : Nat → Nat → List Player := fun r a =>
  if r = 0 then cx8Order0
  else if r = 1 then cx8Order1
  else if a = 1 then cx8OrderY
  else cx8OrderX

def fivePlayers : List Player := ["A", "B", "C", "D", "E"].map mkLevel4M

def fiveOrders : Nat → Nat → List Player := fun r _ =>
  if r = 0 then fivePlayers else ["E", "A", "B", "C", "D"].map mkLevel4M

def rvDefault : RoundView :=
  { roundIndex := 0, courts := [], restingPlayers := [], score := Option.none }

def courtDefault : CourtMatch := { court := 0, team1 := [], team2 := Option.none }

/-- A small feasible run shared by several witnesses: four players, one
court, one round, no constraints, constant attempt order. -/
def smokeRounds : List RoundView :=
  (pageGenerateRounds fourPlayers 1 1 [] [] PriorityMode.none (fun _ _ => fourPlayers)).getD []

def c7Rounds : List RoundView :=
  (part0GenerateRounds fivePlayers 1 2 [] [] PriorityMode.none fiveOrders).getD []

def c5LevelMap : List (String × Int) := [("A", 5), ("B", 5), ("C", 4), ("D", 4)]

def c5Court : CourtMatch := { court := 1, team1 := ["A", "B"], team2 := some ["C", "D"] }

def c6P1 : Player := mkLevel4M "P"

def c6B : Player := { name := "B", level := 8, gender := Gender.M }

def c6C : Player := { name := "C", level := 4, gender := Gender.M }

def c8ZeroCand : Cand := { score := 0, courts := [], resting := [], teams := [] }

/-! ## Lemmas about the stable sort and the lexicographic comparator -/

theorem mem_insLe {α : Type} (le : α → α → Bool) (a x : α) :
    ∀ l : List α, x ∈ insLe le a l ↔ x = a ∨ x ∈ l
  | [] => by simp [insLe]
  | b :: l => by
      simp only [insLe]
      split
      · simp [List.mem_cons]
      · rw [List.mem_cons, mem_insLe le a x l]
        simp [List.mem_cons]
        tauto

theorem insLe_perm {α : Type} (le : α → α → Bool) (a : α) :
    ∀ l : List α, (insLe le a l).Perm (a :: l)
  | [] => List.Perm.refl _
  | b :: l => by
      simp only [insLe]
      split
      · exact List.Perm.refl _
      · exact ((insLe_perm le a l).cons b).trans (List.Perm.swap a b l)

theorem sortG_perm {α : Type} (le : α → α → Bool) :
    ∀ l : List α, (sortG le l).Perm l
  | [] => List.Perm.refl _
  | a :: l => (insLe_perm le a (sortG le l)).trans ((sortG_perm le l).cons a)

theorem pairwise_insLe {α : Type} (le : α → α → Bool)
    (htot : ∀ a b, le a b = true ∨ le b a = true)
    (htr : ∀ a b c, le a b = true → le b c = true → le a c = true) (a : α) :
    ∀ l : List α, l.Pairwise (fun x y => le x y = true) →
      (insLe le a l).Pairwise (fun x y => le x y = true)
  | [], _ => by simp [insLe]
  | b :: l, h => by
      simp only [insLe]
      rcases List.pairwise_cons.mp h with ⟨hb, hl⟩
      split
      · rename_i hab
        refine List.pairwise_cons.mpr ⟨?_, h⟩
        intro x hx
        rcases List.mem_cons.mp hx with hx | hx
        · subst hx; exact hab
        · exact htr a b x hab (hb x hx)
      · rename_i hab
        have hba : le b a = true := by
          rcases htot a b with h₁ | h₁
          · exact absurd h₁ hab
          · exact h₁
        refine List.pairwise_cons.mpr ⟨?_, pairwise_insLe le htot htr a l hl⟩
        intro x hx
        rcases (mem_insLe le a x l).mp hx with hx | hx
        · subst hx; exact hba
        · exact hb x hx

theorem sortG_pairwise {α : Type} (le : α → α → Bool)
    (htot : ∀ a b, le a b = true ∨ le b a = true)
    (htr : ∀ a b c, le a b = true → le b c = true → le a c = true) :
    ∀ l : List α, (sortG le l).Pairwise (fun x y => le x y = true)
  | [] => List.Pairwise.nil
  | a :: l => pairwise_insLe le htot htr a (sortG le l) (sortG_pairwise le htot htr l)

theorem lexLe_total : ∀ l₁ l₂ : List Int, lexLe l₁ l₂ = true ∨ lexLe l₂ l₁ = true
  | [], _ => Or.inl rfl
  | _ :: _, [] => Or.inr rfl
  | a :: as, b :: bs => by
      simp only [lexLe]
      rcases lt_trichotomy a b with h | h | h
      · left; simp [h]
      · subst h
        simp only [lt_irrefl, if_false]
        exact lexLe_total as bs
      · right; simp [h]

theorem lexLe_trans : ∀ l₁ l₂ l₃ : List Int,
    lexLe l₁ l₂ = true → lexLe l₂ l₃ = true → lexLe l₁ l₃ = true
  | [], _, _, _, _ => rfl
  | _ :: _, [], _, h₁, _ => by simp [lexLe] at h₁
  | _ :: _, _ :: _, [], _, h₂ => by simp [lexLe] at h₂
  | a :: as, b :: bs, c :: cs, h₁, h₂ => by
      simp only [lexLe] at h₁ h₂ ⊢
      split at h₁
      · rename_i hab
        split at h₂
        · rename_i hbc; simp [lt_trans hab hbc]
        · split at h₂
          · exact absurd h₂ (by simp)
          · rename_i hcb hbc
            have : b = c := le_antisymm (not_lt.mp hbc) (not_lt.mp hcb)
            subst this
            simp [hab]
      · split at h₁
        · exact absurd h₁ (by simp)
        · rename_i hba hab
          have hab' : a = b := le_antisymm (not_lt.mp hab) (not_lt.mp hba)
          subst hab'
          split at h₂
          · rename_i hac; simp [hac]
          · split at h₂
            · exact absurd h₂ (by simp)
            · rename_i hca hac
              simp only [hac, if_false, hca]
              exact lexLe_trans as bs cs h₁ h₂

theorem lexLe_one (x y : Int) : lexLe [x] [y] = true ↔ x ≤ y := by
  simp only [lexLe]
  split
  · rename_i h
    simp [le_of_lt h]
  · split
    · rename_i h₁ h₂
      constructor
      · intro hc; exact absurd hc (by simp)
      · intro hle; exact absurd h₂ (not_lt.mpr hle)
    · rename_i h₁ h₂
      have hxy : x = y := le_antisymm (not_lt.mp h₂) (not_lt.mp h₁)
      subst hxy
      simp [lexLe]

theorem lexLe_cons (x y : Int) (xs ys : List Int) :
    lexLe (x :: xs) (y :: ys) = true ↔ x < y ∨ (x = y ∧ lexLe xs ys = true) := by
  simp only [lexLe]
  split
  · rename_i h; simp [h]
  · split
    · rename_i h₁ h₂
      constructor
      · intro hc; exact absurd hc (by simp)
      · intro hor
        rcases hor with h | ⟨he, _⟩
        · exact absurd h h₁
        · exact absurd (he ▸ h₂) (lt_irrefl x)
    · rename_i h₁ h₂
      have hxy : x = y := le_antisymm (not_lt.mp h₂) (not_lt.mp h₁)
      subst hxy
      simp

/-! ## Lemmas about `firstSome`, association lists and name filters -/

theorem firstSome_eq_some {α β : Type} (f : α → Option β) (b : β) :
    ∀ l : List α, firstSome f l = some b → ∃ a, a ∈ l ∧ f a = some b
  | [], h => by simp [firstSome] at h
  | a :: l, h => by
      simp only [firstSome] at h
      split at h
      · rename_i v hv
        exact ⟨a, List.mem_cons_self a l, hv.trans h⟩
      · rcases firstSome_eq_some f b l h with ⟨a₁, ha₁, hf⟩
        exact ⟨a₁, List.mem_cons_of_mem a ha₁, hf⟩

theorem firstSome_eq_none {α β : Type} (f : α → Option β) :
    ∀ l : List α, (∀ a ∈ l, f a = Option.none) → firstSome f l = Option.none
  | [], _ => rfl
  | a :: l, h => by
      simp only [firstSome]
      rw [h a (List.mem_cons_self a l)]
      exact firstSome_eq_none f l (fun x hx => h x (List.mem_cons_of_mem a hx))

theorem alGet_alSet {α : Type} (k₁ k : String) (v : α) :
    ∀ m : List (String × α),
      alGet (alSet m k₁ v) k = if k₁ = k then some v else alGet m k
  | [] => by
      simp only [alSet, alGet]
  | (k₂, v₂) :: t => by
      simp only [alSet]
      split
      · rename_i h₂
        subst h₂
        simp only [alGet]
        split
        · rfl
        · rfl
      · rename_i h₂
        simp only [alGet]
        by_cases h₃ : k₂ = k
        · rw [if_pos h₃]
          have h₄ : ¬k₁ = k := fun h => h₂ (h₃.trans h.symm)
          rw [if_neg h₄, if_pos h₃]
        · rw [if_neg h₃, if_neg h₃]
          exact alGet_alSet k₁ k v t

theorem names_filter (p : String → Bool) :
    ∀ l : List Player,
      (l.filter (fun q => p q.name)).map Player.name = (l.map Player.name).filter p
  | [] => rfl
  | q :: l => by
      cases h : p q.name <;>
        simp [List.filter_cons, List.map_cons, h, names_filter p l]

/-! ## Lemmas about the pairing search -/

theorem mem_names_filter {l : List Player} {x y n : String}
    (h : n ∈ (l.filter (fun q => q.name ≠ x ∧ q.name ≠ y)).map Player.name) :
    n ∈ l.map Player.name ∧ n ≠ x ∧ n ≠ y := by
  simp only [List.mem_map, List.mem_filter, decide_eq_true_eq] at h
  rcases h with ⟨q, ⟨hq, hne⟩, rfl⟩
  exact ⟨List.mem_map_of_mem Player.name hq, hne⟩

/-- Every team produced by the backtracking search avoids the forbidden
keys and the previous-round keys: each pair is appended only after both
checks pass. -/
theorem searchFuel_keys (forb : List String) (prev : Option (List String))
    (sortC : Player → List Player → List Player) :
    ∀ fuel l ts, searchFuel forb prev sortC fuel l = some ts →
      ∀ t ∈ ts, pairKeyS t.1 t.2 ∉ forb ∧ pairKeyS t.1 t.2 ∉ prev.getD []
  | 0, _, _, h => by simp [searchFuel] at h
  | _ + 1, [], ts, h => by
      simp only [searchFuel] at h
      cases h
      simp
  | _ + 1, [_], ts, h => by
      simp only [searchFuel] at h
      cases h
      simp
  | fuel + 1, p₁ :: q :: rest, ts, h => by
      simp only [searchFuel] at h
      rcases firstSome_eq_some _ _ _ h with ⟨p₂, _, hf⟩
      split_ifs at hf with h₁ h₂
      rcases Option.map_eq_some'.mp hf with ⟨ts₁, hts₁, rfl⟩
      intro t ht
      rcases List.mem_cons.mp ht with ht | ht
      · subst ht
        exact ⟨h₁, h₂⟩
      · exact searchFuel_keys forb prev sortC fuel _ ts₁ hts₁ t ht

/-- Under a permutation-respecting candidate ordering and duplicate-free
input names, the search produces teams of pairwise-distinct names drawn
from the input, with no name used twice. -/
theorem searchFuel_names (forb : List String) (prev : Option (List String))
    (sortC : Player → List Player → List Player)
    (hs : ∀ p c, (sortC p c).Perm c) :
    ∀ fuel l ts, searchFuel forb prev sortC fuel l = some ts →
      (l.map Player.name).Nodup →
      (teamNames ts).Nodup ∧ (∀ n ∈ teamNames ts, n ∈ l.map Player.name) ∧
      ∀ t ∈ ts, t.1 ≠ t.2
  | 0, _, _, h, _ => by simp [searchFuel] at h
  | _ + 1, [], ts, h, _ => by
      simp only [searchFuel] at h
      cases h
      simp [teamNames]
  | _ + 1, [_], ts, h, _ => by
      simp only [searchFuel] at h
      cases h
      simp [teamNames]
  | fuel + 1, p₁ :: q :: rest, ts, h, hnd => by
      simp only [searchFuel] at h
      rcases firstSome_eq_some _ _ _ h with ⟨p₂, hp₂s, hf⟩
      split_ifs at hf with h₁ h₂
      rcases Option.map_eq_some'.mp hf with ⟨ts₁, hts₁, rfl⟩
      have hp₂ : p₂ ∈ q :: rest := (hs p₁ (q :: rest)).mem_iff.mp hp₂s
      have hp₂n : p₂.name ∈ (q :: rest).map Player.name := List.mem_map_of_mem Player.name hp₂
      have hnd₁ : (((q :: rest).filter
          (fun q₁ => q₁.name ≠ p₁.name ∧ q₁.name ≠ p₂.name)).map Player.name).Nodup :=
        (List.nodup_cons.mp hnd).2.sublist ((List.filter_sublist _).map Player.name)
      rcases searchFuel_names forb prev sortC hs fuel _ ts₁ hts₁ hnd₁ with ⟨ih₁, ih₂, ih₃⟩
      have hp₁ne : p₁.name ∉ (q :: rest).map Player.name := (List.nodup_cons.mp hnd).1
      refine ⟨?_, ?_, ?_⟩
      · simp only [teamNames, List.nodup_cons]
        refine ⟨?_, ?_, ih₁⟩
        · intro hc
          rcases List.mem_cons.mp hc with hc | hc
          · exact hp₁ne (hc ▸ hp₂n)
          · exact (mem_names_filter (ih₂ _ hc)).2.1 rfl
        · intro hc
          exact (mem_names_filter (ih₂ _ hc)).2.2 rfl
      · intro n hn
        simp only [teamNames, List.mem_cons] at hn
        rcases hn with rfl | rfl | hn
        · simp
        · simpa using Or.inr (by simpa using hp₂n)
        · have := (mem_names_filter (ih₂ _ hn)).1
          simp only [List.map_cons, List.mem_cons] at this ⊢
          tauto
      · intro t ht
        rcases List.mem_cons.mp ht with rfl | ht
        · intro hc
          exact hp₁ne ((show p₁.name = p₂.name from hc) ▸ hp₂n)
        · exact ih₃ t ht

/-- The resting list of `findRoundPairing` is exactly the input names not
used in any team. -/
theorem restingOf_mem (order : List Player) (ts : List Team) (n : String) :
    n ∈ restingOf order ts ↔ n ∈ order.map Player.name ∧ n ∉ teamNames ts := by
  simp only [restingOf, List.mem_map, List.mem_filter, decide_eq_true_eq]
  constructor
  · rintro ⟨p, ⟨hp, hnot⟩, rfl⟩
    exact ⟨⟨p, hp, rfl⟩, hnot⟩
  · rintro ⟨⟨p, hp, rfl⟩, hnot⟩
    exact ⟨p, ⟨hp, hnot⟩, rfl⟩

theorem restingOf_nodup (order : List Player) (ts : List Team)
    (hnd : (order.map Player.name).Nodup) : (restingOf order ts).Nodup :=
  hnd.sublist ((List.filter_sublist _).map Player.name)

/-! ## Lemmas about court assignment -/

theorem buildCourts_names (cc : Int) :
    ∀ n ts, courtNames (buildCourts cc n ts).1 ++ teamNames (buildCourts cc n ts).2 =
      teamNames ts
  | _, [] => rfl
  | _, [_] => rfl
  | n, t₁ :: t₂ :: rest => by
      simp only [buildCourts]
      split
      · simp only [courtNames, teamNames, List.cons_append, List.nil_append,
          List.append_assoc]
        rw [buildCourts_names cc (n + 1) rest]
      · simp [courtNames]

theorem buildCourts_mem (cc : Int) :
    ∀ n ts c, c ∈ (buildCourts cc n ts).1 →
      ∃ t₁ t₂, t₁ ∈ ts ∧ t₂ ∈ ts ∧ c.team1 = [t₁.1, t₁.2] ∧ c.team2 = some [t₂.1, t₂.2]
  | _, [], c, h => by simp [buildCourts] at h
  | _, [_], c, h => by simp [buildCourts] at h
  | n, t₁ :: t₂ :: rest, c, h => by
      simp only [buildCourts] at h
      split at h
      · rcases List.mem_cons.mp h with h | h
        · subst h
          exact ⟨t₁, t₂, by simp, by simp, rfl, rfl⟩
        · rcases buildCourts_mem cc (n + 1) rest c h with ⟨a, b, ha, hb, h₁, h₂⟩
          exact ⟨a, b, by simp [ha], by simp [hb], h₁, h₂⟩
      · simp at h

theorem buildCourts_left_mem (cc : Int) :
    ∀ n ts t, t ∈ (buildCourts cc n ts).2 → t ∈ ts
  | _, [], _, h => h
  | _, [_], _, h => h
  | n, t₁ :: t₂ :: rest, t, h => by
      simp only [buildCourts] at h
      split at h
      · have := buildCourts_left_mem cc (n + 1) rest t h
        simp [this]
      · exact h

/-! ## Per-round invariants and per-candidate lemmas -/

theorem mem_flatMapL {α β : Type} (f : α → List β) (b : β) :
    ∀ l : List α, b ∈ flatMapL f l ↔ ∃ a, a ∈ l ∧ b ∈ f a
  | [] => by simp [flatMapL]
  | a :: l => by
      simp only [flatMapL, List.mem_append, mem_flatMapL f b l, List.mem_cons]
      constructor
      · rintro (h | ⟨a₁, h₁, h₂⟩)
        · exact ⟨a, Or.inl rfl, h⟩
        · exact ⟨a₁, Or.inr h₁, h₂⟩
      · rintro ⟨a₁, h₁ | h₁, h₂⟩
        · subst h₁; exact Or.inl h₂
        · exact Or.inr ⟨a₁, h₁, h₂⟩

/-- Destructor for a successful `mkCand`. -/
theorem mkCand_eq_some {v : Variant} {cc : Int} {fx fb : List Team} {mode : PriorityMode}
    {st : St} {r : Nat} {order : List Player} {cand : Cand}
    (h : mkCand v cc fx fb mode st r order = some cand) :
    ∃ ts, searchFuel (forbKeys fb) st.prevPairs (v.candSort mode st.games st.last)
        order.length order = some ts ∧
      cand.courts = (buildCourts cc 1 ts).1 ∧
      cand.resting = restingOf order ts ++ teamNames (buildCourts cc 1 ts).2 ∧
      (v.hardBan && hasRepeatedMatchup st.mCount (buildCourts cc 1 ts).1) = false := by
  unfold mkCand findPairing at h
  rcases hsf : searchFuel (forbKeys fb) st.prevPairs (v.candSort mode st.games st.last)
      order.length order with _ | ts
  · rw [hsf] at h
    exact absurd h (by simp)
  · rw [hsf] at h
    simp only at h
    split at h
    · exact absurd h (by simp)
    · rename_i hban
      cases h
      exact ⟨ts, rfl, rfl, rfl, Bool.not_eq_true _ ▸ hban⟩

/-- A successful candidate satisfies the C1 invariant relative to the
roster, provided the search order is a permutation of the roster with
duplicate-free names and the candidate ordering permutes its input. -/
theorem mkCand_roundOK {v : Variant}
    (hs : ∀ m g l p c, (v.candSort m g l p c).Perm c)
    {players order : List Player} {cc : Int} {fx fb : List Team} {mode : PriorityMode}
    {st : St} {r : Nat} {cand : Cand}
    (hnd : (players.map Player.name).Nodup) (horder : order.Perm players)
    (h : mkCand v cc fx fb mode st r order = some cand) :
    (courtNames cand.courts ++ cand.resting).Nodup ∧
    (∀ c ∈ cand.courts,
      (∃ a b, c.team1 = [a, b] ∧ a ≠ b) ∧ (∃ a b, c.team2 = some [a, b] ∧ a ≠ b)) ∧
    (∀ n, n ∈ cand.resting ↔ n ∈ players.map Player.name ∧ n ∉ courtNames cand.courts) := by
  rcases mkCand_eq_some h with ⟨ts, hsf, hcourts, hresting, _⟩
  have hndo : (order.map Player.name).Nodup := ((horder.map Player.name).nodup_iff).mpr hnd
  rcases searchFuel_names _ _ _ (hs mode st.games st.last) _ _ _ hsf hndo with ⟨ndTN, subTN, hdist⟩
  have hsplit := buildCourts_names cc 1 ts
  have hmemsplit : ∀ n, n ∈ courtNames (buildCourts cc 1 ts).1 ∨
      n ∈ teamNames (buildCourts cc 1 ts).2 ↔ n ∈ teamNames ts := by
    intro n
    rw [← hsplit, List.mem_append]
  have hnamesiff : ∀ n, n ∈ order.map Player.name ↔ n ∈ players.map Player.name :=
    fun n => (horder.map Player.name).mem_iff
  have ndSplit : (courtNames (buildCourts cc 1 ts).1 ++ teamNames (buildCourts cc 1 ts).2).Nodup :=
    hsplit ▸ ndTN
  have ndR : (restingOf order ts).Nodup := restingOf_nodup order ts hndo
  refine ⟨?_, ?_, ?_⟩
  · rw [hcourts, hresting]
    have hperm : (courtNames (buildCourts cc 1 ts).1 ++
        (restingOf order ts ++ teamNames (buildCourts cc 1 ts).2)).Perm
        ((courtNames (buildCourts cc 1 ts).1 ++ teamNames (buildCourts cc 1 ts).2) ++
          restingOf order ts) := by
      rw [List.append_assoc]
      exact List.Perm.append_left _ List.perm_append_comm
    rw [hperm.nodup_iff]
    rw [List.nodup_append]
    refine ⟨ndSplit, ndR, ?_⟩
    intro n hn hnr
    have hnts : n ∈ teamNames ts := by
      rw [← hsplit]
      exact hn
    exact ((restingOf_mem order ts n).mp hnr).2 hnts
  · intro c hc
    rw [hcourts] at hc
    rcases buildCourts_mem cc 1 ts c hc with ⟨t₁, t₂, ht₁, ht₂, he₁, he₂⟩
    exact ⟨⟨t₁.1, t₁.2, he₁, hdist t₁ ht₁⟩, ⟨t₂.1, t₂.2, he₂, hdist t₂ ht₂⟩⟩
  · intro n
    rw [hcourts, hresting, List.mem_append]
    constructor
    · rintro (hn | hn)
      · rcases (restingOf_mem order ts n).mp hn with ⟨hmem, hnot⟩
        refine ⟨(hnamesiff n).mp hmem, ?_⟩
        intro hcn
        exact hnot (by rw [← hsplit]; exact List.mem_append.mpr (Or.inl hcn))
      · have hnts : n ∈ teamNames ts := by
          rw [← hsplit]
          exact List.mem_append.mpr (Or.inr hn)
        refine ⟨(hnamesiff n).mp (subTN n hnts), ?_⟩
        intro hcn
        rcases List.nodup_append.mp ndSplit with ⟨_, _, hdisj⟩
        exact hdisj hcn hn
    · rintro ⟨hmem, hnot⟩
      by_cases hnts : n ∈ teamNames ts
      · rcases List.mem_append.mp (by rw [hsplit]; exact hnts :
          n ∈ courtNames (buildCourts cc 1 ts).1 ++ teamNames (buildCourts cc 1 ts).2) with
          hcn | htl
        · exact absurd hcn hnot
        · exact Or.inr htl
      · exact Or.inl ((restingOf_mem order ts n).mpr ⟨(hnamesiff n).mpr hmem, hnts⟩)

/-- Every team placed on a court of a successful candidate has a pair key
outside the forbidden set and outside the previous round's pair set. -/
theorem mkCand_keys {v : Variant} {order : List Player} {cc : Int}
    {fx fb : List Team} {mode : PriorityMode} {st : St} {r : Nat} {cand : Cand}
    (h : mkCand v cc fx fb mode st r order = some cand) :
    ∀ c ∈ cand.courts, ∀ k ∈ courtPairs c,
      k ∉ forbKeys fb ∧ k ∉ st.prevPairs.getD [] := by
  rcases mkCand_eq_some h with ⟨ts, hsf, hcourts, _, _⟩
  intro c hc k hk
  rw [hcourts] at hc
  rcases buildCourts_mem cc 1 ts c hc with ⟨t₁, t₂, ht₁, ht₂, he₁, he₂⟩
  have hcp : courtPairs c = [pairKeyS t₁.1 t₁.2, pairKeyS t₂.1 t₂.2] := by
    simp [courtPairs, he₁, he₂]
  rw [hcp] at hk
  rcases List.mem_cons.mp hk with rfl | hk
  · exact searchFuel_keys _ _ _ _ _ _ hsf t₁ ht₁
  · rcases List.mem_singleton.mp hk with rfl
    exact searchFuel_keys _ _ _ _ _ _ hsf t₂ ht₂

/-- Every court of a successful candidate has a second team. -/
theorem mkCand_team2 {v : Variant} {order : List Player} {cc : Int}
    {fx fb : List Team} {mode : PriorityMode} {st : St} {r : Nat} {cand : Cand}
    (h : mkCand v cc fx fb mode st r order = some cand) :
    ∀ c ∈ cand.courts, c.team2.isSome = true := by
  rcases mkCand_eq_some h with ⟨ts, _, hcourts, _, _⟩
  intro c hc
  rw [hcourts] at hc
  rcases buildCourts_mem cc 1 ts c hc with ⟨_, _, _, _, _, he₂⟩
  simp [he₂]

/-- In the hard-ban variant, no court of a surviving candidate reproduces
a matchup key already present in the history map. -/
theorem mkCand_hardBan {v : Variant} (hv : v.hardBan = true) {order : List Player}
    {cc : Int} {fx fb : List Team} {mode : PriorityMode} {st : St} {r : Nat} {cand : Cand}
    (h : mkCand v cc fx fb mode st r order = some cand) :
    ∀ k ∈ matchupKeysOf cand.courts, alGet st.mCount k = Option.none := by
  rcases mkCand_eq_some h with ⟨ts, _, hcourts, _, hban⟩
  rw [hv, Bool.true_and] at hban
  intro k hk
  rw [hcourts] at hk
  rcases (mem_flatMapL _ _ _).mp hk with ⟨c, hc, hkc⟩
  rcases hc2 : c.team2 with _ | t2
  · rw [hc2] at hkc
    simp at hkc
  · rw [hc2] at hkc
    rcases List.mem_singleton.mp hkc with rfl
    have hany := List.any_eq_false.mp (by rw [hasRepeatedMatchup] at hban; exact hban) c hc
    rw [hc2] at hany
    have hany₁ : ¬(alGet st.mCount (matchupKeyL c.team1 t2)).isSome = true := hany
    cases halg : alGet st.mCount (matchupKeyL c.team1 t2)
    · rfl
    · rw [halg] at hany₁
      simp at hany₁

/-! ## Lemmas about the attempt loop and the round loop -/

/-- Any property of every generated candidate and of the incoming best
candidate holds of the attempt loop's result. -/
theorem runAttempts_prop (attf : Nat → Option Cand) (P : Cand → Prop)
    (hA : ∀ i c, attf i = some c → P c) :
    ∀ l best res, (∀ b, best = some b → P b) →
      runAttempts attf l best = some res → P res
  | [], best, res, hbest, h => hbest res h
  | i :: rest, best, res, hbest, h => by
      rw [runAttempts] at h
      rcases hi : attf i with _ | c
      · rw [hi] at h
        simp only at h
        exact runAttempts_prop attf P hA rest best res hbest h
      · rw [hi] at h
        simp only at h
        split at h
        · split at h
          · cases h
            exact hA i res hi
          · exact runAttempts_prop attf P hA rest (some c) res
              (fun b hb => by cases hb; exact hA i c hi) h
        · exact runAttempts_prop attf P hA rest best res hbest h

theorem runAttempts_none (attf : Nat → Option Cand) (hA : ∀ i, attf i = Option.none) :
    ∀ l, runAttempts attf l Option.none = Option.none
  | [] => rfl
  | i :: rest => by
      simp only [runAttempts, hA i]
      exact runAttempts_none attf hA rest

/-- Destructor for a successful `genStep`. -/
theorem genStep_eq_some {v : Variant} {cc : Int} {fx fb : List Team} {mode : PriorityMode}
    {orders : Nat → Nat → List Player} {st : St} {r : Nat} {rv : RoundView} {st₁ : St}
    (h : genStep v cc fx fb mode orders st r = some (rv, st₁)) :
    ∃ best, runAttempts (fun i => mkCand v cc fx fb mode st r (orders r i))
        (List.range 60) Option.none = some best ∧
      rv = { roundIndex := r, courts := best.courts,
             restingPlayers := best.resting, score := some best.score } ∧
      st₁ = commitSt st r best := by
  unfold genStep at h
  rcases hra : runAttempts (fun i => mkCand v cc fx fb mode st r (orders r i))
      (List.range 60) Option.none with _ | best
  · rw [hra] at h
    exact absurd h (by simp)
  · rw [hra] at h
    simp only at h
    cases h
    exact ⟨best, rfl, rfl, rfl⟩

/-! ### Association-list folds used by the commit step -/

theorem foldl_alSet_get_none {β : Type} (key : CourtMatch → String)
    (val : List (String × β) → CourtMatch → β) :
    ∀ (l : List CourtMatch) (m : List (String × β)) (k : String),
      alGet (l.foldl (fun m c => alSet m (key c) (val m c)) m) k = Option.none →
      alGet m k = Option.none
  | [], _, _, h => h
  | c :: t, m, k, h => by
      have h₁ := foldl_alSet_get_none key val t (alSet m (key c) (val m c)) k h
      rw [alGet_alSet] at h₁
      split at h₁
      · exact absurd h₁ (by simp)
      · exact h₁

theorem foldl_alSet_isSome {β : Type} (key : CourtMatch → String)
    (val : List (String × β) → CourtMatch → β) :
    ∀ (l : List CourtMatch) (m : List (String × β)) (k : String),
      (alGet m k).isSome = true →
      (alGet (l.foldl (fun m c => alSet m (key c) (val m c)) m) k).isSome = true
  | [], _, _, h => h
  | c :: t, m, k, h => by
      refine foldl_alSet_isSome key val t (alSet m (key c) (val m c)) k ?_
      rw [alGet_alSet]
      split
      · rfl
      · exact h

theorem foldl_alSet_mem_isSome {β : Type} (key : CourtMatch → String)
    (val : List (String × β) → CourtMatch → β) :
    ∀ (l : List CourtMatch) (m : List (String × β)) (k : String),
      k ∈ l.map key →
      (alGet (l.foldl (fun m c => alSet m (key c) (val m c)) m) k).isSome = true
  | [], _, _, h => by simp at h
  | c :: t, m, k, h => by
      rcases List.mem_cons.mp h with h | h
      · refine foldl_alSet_isSome key val t (alSet m (key c) (val m c)) k ?_
        rw [alGet_alSet, if_pos h.symm]
        rfl
      · exact foldl_alSet_mem_isSome key val t (alSet m (key c) (val m c)) k h

/-- The matchup keys of a round are among the keys the commit step writes. -/
theorem roundMatchupKeys_sub_commit (courts : List CourtMatch) :
    ∀ k ∈ matchupKeysOf courts,
      k ∈ (courts.filter (fun c => c.team2.isSome)).map
        (fun c => matchupKeyL c.team1 (c.team2.getD [])) := by
  intro k hk
  rcases (mem_flatMapL _ _ _).mp hk with ⟨c, hc, hkc⟩
  rcases hc2 : c.team2 with _ | t2
  · rw [hc2] at hkc
    simp at hkc
  · rw [hc2] at hkc
    rcases List.mem_singleton.mp hkc with rfl
    refine List.mem_map.mpr ⟨c, List.mem_filter.mpr ⟨hc, by simp [hc2]⟩, ?_⟩
    rw [hc2]
    rfl

/-! ### Per-claim facts about `genStep` -/

theorem genStep_roundOK {v : Variant}
    (hs : ∀ m g l p c, (v.candSort m g l p c).Perm c)
    {players : List Player} {cc : Int} {fx fb : List Team} {mode : PriorityMode}
    {orders : Nat → Nat → List Player} {st : St} {r : Nat} {rv : RoundView} {st₁ : St}
    (hnd : (players.map Player.name).Nodup)
    (hords : ∀ i, (orders r i).Perm players)
    (h : genStep v cc fx fb mode orders st r = some (rv, st₁)) :
    RoundOK players rv := by
  rcases genStep_eq_some h with ⟨best, hra, rfl, _⟩
  have hbest := runAttempts_prop _
    (fun cand =>
      (courtNames cand.courts ++ cand.resting).Nodup ∧
      (∀ c ∈ cand.courts,
        (∃ a b, c.team1 = [a, b] ∧ a ≠ b) ∧ (∃ a b, c.team2 = some [a, b] ∧ a ≠ b)) ∧
      (∀ n, n ∈ cand.resting ↔ n ∈ players.map Player.name ∧ n ∉ courtNames cand.courts))
    (fun i c hi => mkCand_roundOK hs hnd (hords i) hi)
    (List.range 60) Option.none best (by intro b hb; cases hb) hra
  exact hbest

theorem genStep_keys {v : Variant} {cc : Int} {fx fb : List Team} {mode : PriorityMode}
    {orders : Nat → Nat → List Player} {st : St} {r : Nat} {rv : RoundView} {st₁ : St}
    (h : genStep v cc fx fb mode orders st r = some (rv, st₁)) :
    (∀ k ∈ roundPairKeys rv, k ∉ forbKeys fb ∧ k ∉ st.prevPairs.getD []) ∧
    st₁.prevPairs = some (roundPairKeys rv) := by
  rcases genStep_eq_some h with ⟨best, hra, rfl, rfl⟩
  constructor
  · intro k hk
    rcases (mem_flatMapL _ _ _).mp hk with ⟨c, hc, hkc⟩
    have hbest := runAttempts_prop _
      (fun cand => ∀ c ∈ cand.courts, ∀ k ∈ courtPairs c,
        k ∉ forbKeys fb ∧ k ∉ st.prevPairs.getD [])
      (fun i c hi => mkCand_keys hi)
      (List.range 60) Option.none best (by intro b hb; cases hb) hra
    exact hbest c hc k hkc
  · rfl

theorem genStep_team2 {v : Variant} {cc : Int} {fx fb : List Team} {mode : PriorityMode}
    {orders : Nat → Nat → List Player} {st : St} {r : Nat} {rv : RoundView} {st₁ : St}
    (h : genStep v cc fx fb mode orders st r = some (rv, st₁)) :
    ∀ c ∈ rv.courts, c.team2.isSome = true := by
  rcases genStep_eq_some h with ⟨best, hra, rfl, _⟩
  exact runAttempts_prop _ (fun cand => ∀ c ∈ cand.courts, c.team2.isSome = true)
    (fun i c hi => mkCand_team2 hi)
    (List.range 60) Option.none best (by intro b hb; cases hb) hra

theorem genStep_hardBan {v : Variant} (hv : v.hardBan = true) {cc : Int}
    {fx fb : List Team} {mode : PriorityMode} {orders : Nat → Nat → List Player}
    {st : St} {r : Nat} {rv : RoundView} {st₁ : St}
    (h : genStep v cc fx fb mode orders st r = some (rv, st₁)) :
    (∀ k ∈ roundMatchupKeys rv, alGet st.mCount k = Option.none) ∧
    (∀ k, alGet st₁.mCount k = Option.none → alGet st.mCount k = Option.none) ∧
    (∀ k ∈ roundMatchupKeys rv, (alGet st₁.mCount k).isSome = true) := by
  rcases genStep_eq_some h with ⟨best, hra, rfl, rfl⟩
  have hnonein := runAttempts_prop _
    (fun cand => ∀ k ∈ matchupKeysOf cand.courts, alGet st.mCount k = Option.none)
    (fun i c hi => mkCand_hardBan hv hi)
    (List.range 60) Option.none best (by intro b hb; cases hb) hra
  refine ⟨hnonein, ?_, ?_⟩
  · intro k hk
    exact foldl_alSet_get_none _ _ _ _ _ hk
  · intro k hk
    exact foldl_alSet_mem_isSome _ _ _ _ _ (roundMatchupKeys_sub_commit best.courts k hk)

/-! ### Per-claim facts about `genLoop` -/

theorem genLoop_length {v : Variant} {cc : Int} {fx fb : List Team} {mode : PriorityMode}
    {orders : Nat → Nat → List Player} :
    ∀ (n : Nat) (st : St) (r : Nat) (rs : List RoundView),
      genLoop v cc fx fb mode orders st r n = some rs → rs.length = n
  | 0, _, _, rs, h => by
      cases h
      rfl
  | n + 1, st, r, rs, h => by
      simp only [genLoop] at h
      rcases hgs : genStep v cc fx fb mode orders st r with _ | p
      · rw [hgs] at h
        exact absurd h (by simp)
      · rw [hgs] at h
        rcases Option.map_eq_some'.mp h with ⟨rs₁, hrs₁, rfl⟩
        simp [genLoop_length n p.2 (r + 1) rs₁ hrs₁]

theorem genLoop_roundOK {v : Variant}
    (hs : ∀ m g l p c, (v.candSort m g l p c).Perm c)
    {players : List Player} {cc : Int} {fx fb : List Team} {mode : PriorityMode}
    {orders : Nat → Nat → List Player}
    (hnd : (players.map Player.name).Nodup)
    (hords : ∀ r i, (orders r i).Perm players) :
    ∀ (n : Nat) (st : St) (r : Nat) (rs : List RoundView),
      genLoop v cc fx fb mode orders st r n = some rs → ∀ rv ∈ rs, RoundOK players rv
  | 0, _, _, rs, h => by
      cases h
      simp
  | n + 1, st, r, rs, h => by
      simp only [genLoop] at h
      rcases hgs : genStep v cc fx fb mode orders st r with _ | p
      · rw [hgs] at h
        exact absurd h (by simp)
      · rw [hgs] at h
        rcases Option.map_eq_some'.mp h with ⟨rs₁, hrs₁, rfl⟩
        intro rv hrv
        rcases List.mem_cons.mp hrv with rfl | hrv
        · exact genStep_roundOK hs hnd (hords r) hgs
        · exact genLoop_roundOK hs hnd hords n p.2 (r + 1) rs₁ hrs₁ rv hrv

theorem genLoop_keys {v : Variant} {cc : Int} {fx fb : List Team} {mode : PriorityMode}
    {orders : Nat → Nat → List Player} :
    ∀ (n : Nat) (st : St) (r : Nat) (rs : List RoundView),
      genLoop v cc fx fb mode orders st r n = some rs →
      (∀ rv ∈ rs, ∀ k ∈ roundPairKeys rv, k ∉ forbKeys fb) ∧
      (∀ rv, rs.head? = some rv → ∀ k ∈ roundPairKeys rv, k ∉ st.prevPairs.getD []) ∧
      rs.Chain' (fun r₁ r₂ => ∀ k ∈ roundPairKeys r₂, k ∉ roundPairKeys r₁)
  | 0, _, _, rs, h => by
      cases h
      simp
  | n + 1, st, r, rs, h => by
      simp only [genLoop] at h
      rcases hgs : genStep v cc fx fb mode orders st r with _ | p
      · rw [hgs] at h
        exact absurd h (by simp)
      · rw [hgs] at h
        rcases Option.map_eq_some'.mp h with ⟨rs₁, hrs₁, rfl⟩
        rcases genStep_keys hgs with ⟨hknow, hprev⟩
        rcases genLoop_keys n p.2 (r + 1) rs₁ hrs₁ with ⟨ih₁, ih₂, ih₃⟩
        refine ⟨?_, ?_, ?_⟩
        · intro rv hrv k hk
          rcases List.mem_cons.mp hrv with rfl | hrv
          · exact (hknow k hk).1
          · exact ih₁ rv hrv k hk
        · intro rv hrv k hk
          cases hrv
          exact (hknow k hk).2
        · rw [List.chain'_cons']
          refine ⟨?_, ih₃⟩
          intro rv₂ hrv₂ k hk
          have := ih₂ rv₂ hrv₂ k hk
          rw [hprev] at this
          exact this

theorem genLoop_team2 {v : Variant} {cc : Int} {fx fb : List Team} {mode : PriorityMode}
    {orders : Nat → Nat → List Player} :
    ∀ (n : Nat) (st : St) (r : Nat) (rs : List RoundView),
      genLoop v cc fx fb mode orders st r n = some rs →
      ∀ rv ∈ rs, ∀ c ∈ rv.courts, c.team2.isSome = true
  | 0, _, _, rs, h => by
      cases h
      simp
  | n + 1, st, r, rs, h => by
      simp only [genLoop] at h
      rcases hgs : genStep v cc fx fb mode orders st r with _ | p
      · rw [hgs] at h
        exact absurd h (by simp)
      · rw [hgs] at h
        rcases Option.map_eq_some'.mp h with ⟨rs₁, hrs₁, rfl⟩
        intro rv hrv
        rcases List.mem_cons.mp hrv with rfl | hrv
        · exact genStep_team2 hgs
        · exact genLoop_team2 n p.2 (r + 1) rs₁ hrs₁ rv hrv

theorem genLoop_hardBan {v : Variant} (hv : v.hardBan = true) {cc : Int}
    {fx fb : List Team} {mode : PriorityMode} {orders : Nat → Nat → List Player} :
    ∀ (n : Nat) (st : St) (r : Nat) (rs : List RoundView),
      genLoop v cc fx fb mode orders st r n = some rs →
      (∀ rv ∈ rs, ∀ k ∈ roundMatchupKeys rv, alGet st.mCount k = Option.none) ∧
      rs.Pairwise (fun r₁ r₂ => ∀ k ∈ roundMatchupKeys r₁, k ∉ roundMatchupKeys r₂)
  | 0, _, _, rs, h => by
      cases h
      simp
  | n + 1, st, r, rs, h => by
      simp only [genLoop] at h
      rcases hgs : genStep v cc fx fb mode orders st r with _ | p
      · rw [hgs] at h
        exact absurd h (by simp)
      · rw [hgs] at h
        rcases Option.map_eq_some'.mp h with ⟨rs₁, hrs₁, rfl⟩
        rcases genStep_hardBan hv hgs with ⟨hnow, hmono, hafter⟩
        rcases genLoop_hardBan hv n p.2 (r + 1) rs₁ hrs₁ with ⟨ih₁, ih₂⟩
        refine ⟨?_, ?_⟩
        · intro rv hrv k hk
          rcases List.mem_cons.mp hrv with rfl | hrv
          · exact hnow k hk
          · exact hmono k (ih₁ rv hrv k hk)
        · rw [List.pairwise_cons]
          refine ⟨?_, ih₂⟩
          intro rv₂ hrv₂ k hk hk₂
          have hnone := ih₁ rv₂ hrv₂ k hk₂
          have hsome := hafter k hk
          rw [hnone] at hsome
          simp at hsome

/-! ## Variant-specific sorter facts -/

theorem pageCandSort_perm (m : PriorityMode) (g : List (String × Nat))
    (l : List (String × Int)) (p : Player) (c : List Player) :
    (pageCandSort m g l p c).Perm c := by
  cases m
  · exact List.Perm.refl _
  · exact sortG_perm _ c
  · exact sortG_perm _ c

theorem part0CandSort_perm (m : PriorityMode) (p : Player) (c : List Player) :
    (part0CandSort m p c).Perm c := by
  cases m
  · exact List.Perm.refl _
  · exact sortG_perm _ c
  · exact sortG_perm _ c

theorem pageVariant_sort_perm :
    ∀ m g l p c, (pageVariant.candSort m g l p c).Perm c :=
  fun m g l p c => pageCandSort_perm m g l p c

theorem part0Variant_sort_perm :
    ∀ m g l p c, (part0Variant.candSort m g l p c).Perm c :=
  fun m _ _ p c => part0CandSort_perm m p c

/-! ## The all-pairs-forbidden scenario (claim C3) -/

/-- When every pair of names that can occur is forbidden, the backtracking
search fails on any remaining list of two or more players. -/
theorem searchAllForbidden (forb : List String) (prev : Option (List String))
    (sortC : Player → List Player → List Player)
    (hs : ∀ p c, (sortC p c).Perm c) (names4 : List String)
    (hforb : ∀ x ∈ names4, ∀ y ∈ names4, x ≠ y → pairKeyS x y ∈ forb) :
    ∀ (fuel : Nat) (l : List Player), (l.map Player.name).Nodup →
      (∀ p ∈ l, p.name ∈ names4) → 2 ≤ l.length →
      searchFuel forb prev sortC fuel l = Option.none
  | 0, _, _, _, _ => rfl
  | _ + 1, [], _, _, hlen => by simp at hlen
  | _ + 1, [_], _, _, hlen => by simp at hlen
  | _ + 1, p₁ :: q :: rest, hnd, hsub, _ => by
      simp only [searchFuel]
      apply firstSome_eq_none
      intro p₂ hp₂
      have hp₂m : p₂ ∈ q :: rest := (hs p₁ (q :: rest)).mem_iff.mp hp₂
      have hx : p₁.name ∈ names4 := hsub p₁ (List.mem_cons_self _ _)
      have hy : p₂.name ∈ names4 := hsub p₂ (List.mem_cons_of_mem _ hp₂m)
      have hne : p₁.name ≠ p₂.name := by
        intro he
        exact (List.nodup_cons.mp hnd).1 (he ▸ List.mem_map_of_mem Player.name hp₂m)
      rw [if_pos (hforb _ hx _ hy hne)]

theorem genRounds_allForbidden (v : Variant)
    (hs : ∀ m g l p c, (v.candSort m g l p c).Perm c)
    (orders : Nat → Nat → List Player)
    (hords : ∀ r a, (orders r a).Perm fourPlayers)
    (mc : Nat) (hmc : 1 ≤ mc) :
    genRounds v fourPlayers 1 mc [] allPairsForbidden4 PriorityMode.none orders =
      Option.none := by
  rcases mc with _ | n
  · exact absurd hmc (by simp)
  · have hstep : genStep v 1 [] allPairsForbidden4 PriorityMode.none orders
        (initSt fourPlayers) 0 = Option.none := by
      unfold genStep
      rw [runAttempts_none]
      intro i
      have hperm := hords 0 i
      have hnd : ((orders 0 i).map Player.name).Nodup :=
        ((hperm.map Player.name).nodup_iff).mpr (by decide)
      have hsub : ∀ p ∈ orders 0 i, p.name ∈ ["A", "B", "C", "D"] := by
        intro p hp
        have hall : ∀ p ∈ fourPlayers, p.name ∈ ["A", "B", "C", "D"] := by decide
        exact hall p (hperm.mem_iff.mp hp)
      have hlen : 2 ≤ (orders 0 i).length := by
        rw [hperm.length_eq]
        decide
      have hsf := searchAllForbidden (forbKeys allPairsForbidden4)
        (initSt fourPlayers).prevPairs
        (v.candSort PriorityMode.none (initSt fourPlayers).games (initSt fourPlayers).last)
        (fun p c => hs _ _ _ p c) ["A", "B", "C", "D"]
        (by decide) (orders 0 i).length (orders 0 i) hnd hsub hlen
      unfold mkCand findPairing
      rw [hsf]
    unfold genRounds
    simp only [genLoop]
    rw [hstep]

/-! ## Claim theorems -/

/-- Claim C1: for every schedule returned by `generateRounds` (either
source variant) and every round in it, each player name occurs at most
once across all teams of that round's courts and its resting list, every
team consists of exactly two distinct names, and the resting list is
exactly the players not placed on any court.  Hypotheses: the roster's
names are pairwise distinct (the data model's unique-id invariant) and
every attempt order the `Math.random()`-tie-broken sort produces is a
permutation of the roster (guaranteed by `Array.prototype.sort`). -/
theorem c1_round_player_uniqueness (players : List Player) (cc : Int) (mc : Nat)
    (fx fb : List Team) (mode : PriorityMode) (orders : Nat → Nat → List Player)
    (hnd : (players.map Player.name).Nodup)
    (hords : ∀ r a, (orders r a).Perm players) (rs : List RoundView)
    (h : pageGenerateRounds players cc mc fx fb mode orders = some rs ∨
      part0GenerateRounds players cc mc fx fb mode orders = some rs) :
    ∀ rv ∈ rs, RoundOK players rv := by
  rcases h with h | h
  · exact genLoop_roundOK pageVariant_sort_perm hnd hords mc _ 0 rs h
  · exact genLoop_roundOK part0Variant_sort_perm hnd hords mc _ 0 rs h

theorem c1_round_player_uniqueness_witness :
    (courtNames (smokeRounds.getD 0 rvDefault).courts ++
      (smokeRounds.getD 0 rvDefault).restingPlayers).Nodup :=
  (c1_round_player_uniqueness fourPlayers 1 1 [] [] PriorityMode.none
    (fun _ _ => fourPlayers) (by decide) (fun _ _ => List.Perm.refl _) smokeRounds
    (Or.inl rfl) (smokeRounds.getD 0 rvDefault) (by decide)).1

/-- Claim C2: every team on a court of a generated round has a PairKey
outside the forbidden-pair set, and for consecutive committed rounds no
team of the later round repeats a PairKey of a team of the immediately
preceding round.  Holds for both source variants. -/
theorem c2_pair_key_constraints (players : List Player) (cc : Int) (mc : Nat)
    (fx fb : List Team) (mode : PriorityMode) (orders : Nat → Nat → List Player)
    (rs : List RoundView)
    (h : pageGenerateRounds players cc mc fx fb mode orders = some rs ∨
      part0GenerateRounds players cc mc fx fb mode orders = some rs) :
    (∀ rv ∈ rs, ∀ k ∈ roundPairKeys rv, k ∉ forbKeys fb) ∧
    rs.Chain' (fun r₁ r₂ => ∀ k ∈ roundPairKeys r₂, k ∉ roundPairKeys r₁) := by
  rcases h with h | h
  · rcases genLoop_keys mc _ 0 rs h with ⟨h₁, _, h₃⟩
    exact ⟨h₁, h₃⟩
  · rcases genLoop_keys mc _ 0 rs h with ⟨h₁, _, h₃⟩
    exact ⟨h₁, h₃⟩

theorem c2_pair_key_constraints_witness :
    smokeRounds.Chain' (fun r₁ r₂ => ∀ k ∈ roundPairKeys r₂, k ∉ roundPairKeys r₁) :=
  (c2_pair_key_constraints fourPlayers 1 1 [] [] PriorityMode.none
    (fun _ _ => fourPlayers) smokeRounds (Or.inl rfl)).2

/-- Claim C3: `generateRounds` never returns a partial schedule — it
returns either `none` or exactly `matchCount` rounds — and with 4 players
and every possible pair among them forbidden, generation (any attempt
orders, any positive round count) always fails, in both variants. -/
theorem c3_infeasible_no_partial :
    (∀ (players : List Player) (cc : Int) (mc : Nat) (fx fb : List Team)
      (mode : PriorityMode) (orders : Nat → Nat → List Player) (rs : List RoundView),
      (pageGenerateRounds players cc mc fx fb mode orders = some rs ∨
        part0GenerateRounds players cc mc fx fb mode orders = some rs) →
      rs.length = mc) ∧
    (∀ (orders : Nat → Nat → List Player) (mc : Nat), 1 ≤ mc →
      (∀ r a, (orders r a).Perm fourPlayers) →
      pageGenerateRounds fourPlayers 1 mc [] allPairsForbidden4 PriorityMode.none orders =
        Option.none ∧
      part0GenerateRounds fourPlayers 1 mc [] allPairsForbidden4 PriorityMode.none orders =
        Option.none) := by
  constructor
  · intro players cc mc fx fb mode orders rs h
    rcases h with h | h
    · exact genLoop_length mc _ 0 rs h
    · exact genLoop_length mc _ 0 rs h
  · intro orders mc hmc hords
    exact ⟨genRounds_allForbidden pageVariant pageVariant_sort_perm orders hords mc hmc,
      genRounds_allForbidden part0Variant part0Variant_sort_perm orders hords mc hmc⟩

theorem c3_infeasible_no_partial_witness :
    pageGenerateRounds fourPlayers 1 1 [] allPairsForbidden4 PriorityMode.none
      (fun _ _ => fourPlayers) = Option.none ∧
    part0GenerateRounds fourPlayers 1 1 [] allPairsForbidden4 PriorityMode.none
      (fun _ _ => fourPlayers) = Option.none :=
  c3_infeasible_no_partial.2 (fun _ _ => fourPlayers) 1 (by decide)
    (fun _ _ => List.Perm.refl _)

/-- Claim C7: in the hard-ban variant (`src/unnamed/part_000`), a
candidate reproducing a recorded MatchupKey is discarded before scoring
(the filter in `mkCand` precedes the scorer), and consequently no
four-player MatchupKey occurs in more than one round of any returned
schedule: the rounds are pairwise disjoint in matchup keys. -/
theorem c7_hard_ban_no_repeat (players : List Player) (cc : Int) (mc : Nat)
    (fx fb : List Team) (mode : PriorityMode) (orders : Nat → Nat → List Player)
    (rs : List RoundView)
    (h : part0GenerateRounds players cc mc fx fb mode orders = some rs) :
    rs.Pairwise (fun r₁ r₂ => ∀ k ∈ roundMatchupKeys r₁, k ∉ roundMatchupKeys r₂) :=
  (genLoop_hardBan rfl mc _ 0 rs h).2

theorem c7_hard_ban_no_repeat_witness :
    c7Rounds.Pairwise (fun r₁ r₂ => ∀ k ∈ roundMatchupKeys r₁, k ∉ roundMatchupKeys r₂) :=
  c7_hard_ban_no_repeat fivePlayers 1 2 [] [] PriorityMode.none fiveOrders c7Rounds rfl

/-- Claim C9: every court of every generated round has `team2` present:
courts are only built while at least two unassigned pairs remain, and
surplus pairs are moved whole to the resting list.  Both variants. -/
theorem c9_team2_present (players : List Player) (cc : Int) (mc : Nat)
    (fx fb : List Team) (mode : PriorityMode) (orders : Nat → Nat → List Player)
    (rs : List RoundView)
    (h : pageGenerateRounds players cc mc fx fb mode orders = some rs ∨
      part0GenerateRounds players cc mc fx fb mode orders = some rs) :
    ∀ rv ∈ rs, ∀ c ∈ rv.courts, c.team2.isSome = true := by
  rcases h with h | h
  · exact genLoop_team2 mc _ 0 rs h
  · exact genLoop_team2 mc _ 0 rs h

theorem c9_team2_present_witness :
    ((smokeRounds.getD 0 rvDefault).courts.getD 0 courtDefault).team2.isSome = true :=
  c9_team2_present fourPlayers 1 1 [] [] PriorityMode.none (fun _ _ => fourPlayers)
    smokeRounds (Or.inl rfl) (smokeRounds.getD 0 rvDefault) (by decide)
    ((smokeRounds.getD 0 rvDefault).courts.getD 0 courtDefault) (by decide)

/-- Claim C10: the `src/unnamed/part_000` variant refuses generation with
an error message, before any search, whenever the deduplicated
participant list has fewer than 4 names — stricter than the 2-player
lower bound of `src/app/page.tsx` and of the spec's preconditions. -/
theorem c10_part0_min_four (participants : List String)
    (settings : List (String × PlayerSettings)) (fx fb : List Team) (cc : Int)
    (mc : Nat) (mode : PriorityMode) (orders : Nat → Nat → List Player)
    (h : (dedupFirst participants).length < 4) :
    part0HandleGenerate participants settings fx fb cc mc mode orders =
      GenResult.invalid "最低でも4人以上の参加者が必要です。" := by
  unfold part0HandleGenerate
  rw [if_pos h]

theorem c10_part0_min_four_witness :
    (dedupFirst ["A", "B", "C"]).length < 4 ∧
    part0HandleGenerate ["A", "B", "C"] [] [] [] 2 3 PriorityMode.none (fun _ _ => []) =
      GenResult.invalid "最低でも4人以上の参加者が必要です。" :=
  ⟨by decide,
   c10_part0_min_four ["A", "B", "C"] [] [] [] 2 3 PriorityMode.none (fun _ _ => [])
     (by decide)⟩

theorem effectivePairs_idem (u : List String) (l : List Team) :
    effectivePairs u (effectivePairs u l) = effectivePairs u l := by
  unfold effectivePairs
  rw [List.filter_filter]
  simp

/-- Claim C4 counterexample: a forbidden pair naming the unknown player
"Z" is not rejected as invalid input; both variants silently run the
search and return a schedule. -/
theorem c4_unknown_pair_not_rejected :
    "Z" ∉ dedupFirst ["A", "B", "C", "D"] ∧
    (pageHandleGenerate ["A", "B", "C", "D"] [] [] [("A", "Z")] 1 1 PriorityMode.none
      (fun _ _ => fourPlayers)).isOk = true ∧
    (part0HandleGenerate ["A", "B", "C", "D"] [] [] [("A", "Z")] 1 1 PriorityMode.none
      (fun _ _ => fourPlayers)).isOk = true :=
  ⟨by decide, rfl, rfl⟩

/-- Claim C4 (amended): fixed or forbidden pairs referencing a player
absent from the deduplicated participant list are not rejected; they are
silently filtered out before generation, so `handleGenerate` behaves
exactly as if called with only the pairs whose two members are both
participants.  Rejection happens only for too few participants or a
non-positive court count. -/
theorem c4_unknown_pairs_filtered (participants : List String)
    (settings : List (String × PlayerSettings)) (fx fb : List Team) (cc : Int)
    (mc : Nat) (mode : PriorityMode) (orders : Nat → Nat → List Player) :
    pageHandleGenerate participants settings fx fb cc mc mode orders =
      pageHandleGenerate participants settings
        (effectivePairs (dedupFirst participants) fx)
        (effectivePairs (dedupFirst participants) fb) cc mc mode orders ∧
    part0HandleGenerate participants settings fx fb cc mc mode orders =
      part0HandleGenerate participants settings
        (effectivePairs (dedupFirst participants) fx)
        (effectivePairs (dedupFirst participants) fb) cc mc mode orders := by
  constructor
  · unfold pageHandleGenerate
    simp only [effectivePairs_idem]
  · unfold part0HandleGenerate
    simp only [effectivePairs_idem]

/-- Claim C5 counterexample: in the `part_000` variant the level term is
not 0 at `diff = 2` — it contributes 10 there (threshold `diff >= 2` with
`over = diff − 1`), while the `page.tsx` variant contributes 0. -/
theorem c5_part0_threshold_violation :
    courtDiff c5LevelMap ["A", "B"] ["C", "D"] = 2 ∧
    part0LevelTerm c5LevelMap c5Court = 10 ∧
    pageLevelTerm c5LevelMap c5Court = 0 :=
  ⟨rfl, rfl, rfl⟩

/-- Claim C5 (amended): for a two-team court, the `src/app/page.tsx`
level-imbalance term contributes 0 when `diff ≤ 2` and `10·(diff−2)²`
when `diff > 2`, as the claim states; the `src/unnamed/part_000` variant
instead contributes 0 when `diff ≤ 1` and `10·(diff−1)²` when `diff ≥ 2`.
Courts without a second team contribute 0 in both variants. -/
theorem c5_level_imbalance_terms (lm : List (String × Int)) (n : Nat)
    (t1 t2 : List String) :
    pageLevelTerm lm { court := n, team1 := t1, team2 := some t2 } =
      (if courtDiff lm t1 t2 ≤ 2 then 0 else 10 * (courtDiff lm t1 t2 - 2) ^ 2) ∧
    part0LevelTerm lm { court := n, team1 := t1, team2 := some t2 } =
      (if courtDiff lm t1 t2 ≤ 1 then 0 else 10 * (courtDiff lm t1 t2 - 1) ^ 2) ∧
    pageLevelTerm lm { court := n, team1 := t1, team2 := Option.none } = 0 ∧
    part0LevelTerm lm { court := n, team1 := t1, team2 := Option.none } = 0 := by
  refine ⟨?_, ?_, rfl, rfl⟩
  · show (if 2 < courtDiff lm t1 t2 then
        (courtDiff lm t1 t2 - 2) * (courtDiff lm t1 t2 - 2) * 10 else 0) = _
    split
    · rename_i h
      rw [if_neg (not_le.mpr h)]
      ring
    · rename_i h
      rw [if_pos (not_lt.mp h)]
  · show (if 2 ≤ courtDiff lm t1 t2 then
        (courtDiff lm t1 t2 - 1) * (courtDiff lm t1 t2 - 1) * 10 else 0) = _
    split
    · rename_i h
      rw [if_neg (by omega)]
      ring
    · rename_i h
      rw [if_pos (by omega)]

theorem lexLe_two (x₁ x₂ y₁ y₂ : Int) :
    lexLe [x₁, x₂] [y₁, y₂] = true ↔ x₁ < y₁ ∨ (x₁ = y₁ ∧ x₂ ≤ y₂) := by
  rw [lexLe_cons, lexLe_one]

theorem lexLe_three (x₁ x₂ x₃ y₁ y₂ y₃ : Int) :
    lexLe [x₁, x₂, x₃] [y₁, y₂, y₃] = true ↔
      x₁ < y₁ ∨ (x₁ = y₁ ∧ (x₂ < y₂ ∨ (x₂ = y₂ ∧ x₃ ≤ y₃))) := by
  rw [lexLe_cons, lexLe_two]

theorem lexLe_four (x₁ x₂ x₃ x₄ y₁ y₂ y₃ y₄ : Int) :
    lexLe [x₁, x₂, x₃, x₄] [y₁, y₂, y₃, y₄] = true ↔
      x₁ < y₁ ∨ (x₁ = y₁ ∧ (x₂ < y₂ ∨ (x₂ = y₂ ∧ (x₃ < y₃ ∨ (x₃ = y₃ ∧ x₄ ≤ y₄))))) := by
  rw [lexLe_cons, lexLe_three]

/-- Claim C6 counterexample: in `src/app/page.tsx`, under priority mode
`level`, a candidate with fewer games played is tried before one with a
strictly smaller level distance, so the candidates are not tried in
ascending level distance. -/
theorem c6_page_order_not_level_sorted :
    pageCandSort PriorityMode.level [("B", 0), ("C", 1)] [("B", -1), ("C", -1)] c6P1
      [c6B, c6C] = [c6B, c6C] ∧
    ¬ levelDist c6P1 c6B ≤ levelDist c6P1 c6C :=
  ⟨rfl, by decide⟩

/-- Claim C6 (amended): in `findRoundPairing`, the candidate partners of
the first remaining player `p1` are tried, under priority mode `none`, in
the caller-supplied order unchanged (both variants); in the `part_000`
variant under `level` in ascending absolute level difference to `p1`, and
under `gender` with all opposite-gender candidates before all same-gender
candidates, tie-broken by ascending level difference; in the `page.tsx`
variant the same keys apply only after first sorting by ascending games
played and then by ascending last-played round. -/
theorem c6_candidate_order (p₁ : Player) (cands : List Player)
    (g : List (String × Nat)) (l : List (String × Int)) :
    part0CandSort PriorityMode.none p₁ cands = cands ∧
    pageCandSort PriorityMode.none g l p₁ cands = cands ∧
    ((part0CandSort PriorityMode.level p₁ cands).Perm cands ∧
      (part0CandSort PriorityMode.level p₁ cands).Pairwise
        (fun a b => levelDist p₁ a ≤ levelDist p₁ b)) ∧
    ((part0CandSort PriorityMode.gender p₁ cands).Perm cands ∧
      (part0CandSort PriorityMode.gender p₁ cands).Pairwise
        (fun a b => genderScore p₁ a < genderScore p₁ b ∨
          (genderScore p₁ a = genderScore p₁ b ∧ levelDist p₁ a ≤ levelDist p₁ b))) ∧
    ((pageCandSort PriorityMode.level g l p₁ cands).Perm cands ∧
      (pageCandSort PriorityMode.level g l p₁ cands).Pairwise
        (fun a b =>
          ((alGetD g a.name 0 : Nat) : Int) < ((alGetD g b.name 0 : Nat) : Int) ∨
          (((alGetD g a.name 0 : Nat) : Int) = ((alGetD g b.name 0 : Nat) : Int) ∧
            (alGetD l a.name (-1) < alGetD l b.name (-1) ∨
              (alGetD l a.name (-1) = alGetD l b.name (-1) ∧
                levelDist p₁ a ≤ levelDist p₁ b))))) ∧
    ((pageCandSort PriorityMode.gender g l p₁ cands).Perm cands ∧
      (pageCandSort PriorityMode.gender g l p₁ cands).Pairwise
        (fun a b =>
          ((alGetD g a.name 0 : Nat) : Int) < ((alGetD g b.name 0 : Nat) : Int) ∨
          (((alGetD g a.name 0 : Nat) : Int) = ((alGetD g b.name 0 : Nat) : Int) ∧
            (alGetD l a.name (-1) < alGetD l b.name (-1) ∨
              (alGetD l a.name (-1) = alGetD l b.name (-1) ∧
                (genderScore p₁ a < genderScore p₁ b ∨
                  (genderScore p₁ a = genderScore p₁ b ∧
                    levelDist p₁ a ≤ levelDist p₁ b))))))) := by
  refine ⟨rfl, rfl, ⟨sortG_perm _ cands, ?_⟩, ⟨sortG_perm _ cands, ?_⟩,
    ⟨sortG_perm _ cands, ?_⟩, ⟨sortG_perm _ cands, ?_⟩⟩
  · have h := sortG_pairwise (fun a b => lexLe [levelDist p₁ a] [levelDist p₁ b])
      (fun a b => lexLe_total _ _) (fun a b c => lexLe_trans _ _ _) cands
    exact h.imp (fun hab => (lexLe_one _ _).mp hab)
  · have h := sortG_pairwise
      (fun a b => lexLe [genderScore p₁ a, levelDist p₁ a]
        [genderScore p₁ b, levelDist p₁ b])
      (fun a b => lexLe_total _ _) (fun a b c => lexLe_trans _ _ _) cands
    exact h.imp (fun hab => (lexLe_two _ _ _ _).mp hab)
  · have h := sortG_pairwise
      (fun a b =>
        lexLe [((alGetD g a.name 0 : Nat) : Int), alGetD l a.name (-1), levelDist p₁ a]
          [((alGetD g b.name 0 : Nat) : Int), alGetD l b.name (-1), levelDist p₁ b])
      (fun a b => lexLe_total _ _) (fun a b c => lexLe_trans _ _ _) cands
    exact h.imp (fun hab => (lexLe_three _ _ _ _ _ _).mp hab)
  · have h := sortG_pairwise
      (fun a b =>
        lexLe [((alGetD g a.name 0 : Nat) : Int), alGetD l a.name (-1),
            genderScore p₁ a, levelDist p₁ a]
          [((alGetD g b.name 0 : Nat) : Int), alGetD l b.name (-1),
            genderScore p₁ b, levelDist p₁ b])
      (fun a b => lexLe_total _ _) (fun a b c => lexLe_trans _ _ _) cands
    exact h.imp (fun hab => (lexLe_four _ _ _ _ _ _ _ _).mp hab)

/-- Claim C8 counterexample: one concrete `page.tsx` run (8 players,
fixed pairs AB/CD/EF, one court, three rounds).  At round 2, attempt 1
produces a surviving candidate scoring exactly 0, yet the attempt loop
does not stop there and not that candidate but the −6-scoring candidate
of attempt 0 is committed (0 is not `<` the best score −6). -/
theorem c8_zero_candidate_not_committed :
    (stateAt pageVariant 1 cx8Fixed [] PriorityMode.none cx8Orders cx8Players 2).map
      (fun st =>
        (mkCand pageVariant 1 cx8Fixed [] PriorityMode.none st 2 (cx8Orders 2 1)).map
          Cand.score) = some (some 0) ∧
    (pageGenerateRounds cx8Players 1 3 cx8Fixed [] PriorityMode.none cx8Orders).map
      (fun rs => rs.map RoundView.score) = some [some 11, some 34, some (-6)] :=
  ⟨rfl, rfl⟩

/-- Claim C8 (amended): within the attempt loop of one round, as soon as
an attempt produces a surviving candidate whose score is exactly 0 *and
strictly below the best score so far* (in particular whenever no earlier
surviving candidate scored below zero), no further attempts are made and
that candidate is the one committed.  With a negative-scoring best (a
fixed-pair bonus), a 0-scoring candidate neither stops the loop nor gets
committed. -/
theorem c8_zero_break (attf : Nat → Option Cand) (i : Nat) (rest : List Nat)
    (best : Option Cand) (c : Cand)
    (hc : attf i = some c) (hz : c.score = 0)
    (hbest : ∀ b, best = some b → 0 < b.score) :
    runAttempts attf (i :: rest) best = some c := by
  rcases best with _ | b
  · rw [runAttempts, hc]
    simp [hz]
  · rw [runAttempts, hc]
    have h₀ : (0 : Int) < b.score := hbest b rfl
    simp [hz, h₀]

theorem c8_zero_break_witness :
    (fun _ : Nat => some c8ZeroCand) 0 = some c8ZeroCand ∧ c8ZeroCand.score = 0 ∧
    runAttempts (fun _ => some c8ZeroCand) [0, 1] Option.none = some c8ZeroCand :=
  ⟨rfl, rfl,
   c8_zero_break (fun _ => some c8ZeroCand) 0 [1] Option.none c8ZeroCand rfl rfl
     (fun _ hb => nomatch hb)⟩

end TM
